/-
  Verification of the SmartAgroX mock satellite API
  (src/backend/app/main.py) against its natural-language specification.

  The service has three endpoints:
    * POST /api/ndvi               (get_ndvi)
    * GET  /api/historical-ndvi    (get_historical_ndvi)
    * GET  /api/satellite-imagery  (get_satellite_imagery)

  Modelling conventions:
    * Every random draw made by the Python code (random.uniform,
      np.random.normal, np.random.choice) is an explicit input of the
      Lean function: `samples` is the list of normal draws, `idx` the
      index list chosen by np.random.choice, `r0`/`rs` the uniform draws
      of the historical loop.  Properties of the numpy samplers that the
      code relies on (e.g. that np.random.choice with replace=False
      returns `size` distinct positions) appear as hypotheses.
    * Exact rational / real arithmetic stands in for IEEE floats.  The
      sample pipeline of get_ndvi is entirely rational; the seasonal
      factor uses Real.sin, so the historical values live in ℝ.
    * datetime.strptime("%Y-%m-%d") is embedded following CPython's
      _strptime: a four-digit year, a one-or-two-digit month matching
      1[0-2]|0[1-9]|[1-9], a one-or-two-digit day matching
      3[01]|[12]\d|0[1-9]|[1-9], full-string consumption, and the
      datetime range checks (year ≥ 1, day ≤ days-in-month).
    * datetime ordinals follow CPython's _ymd2ord/_ord2ymd (proleptic
      Gregorian, ordinal 1 = 0001-01-01); timedelta(days=16) is +16 on
      ordinals, and `while current <= end` is a fuel-bounded loop whose
      fuel dominates the iteration count.  The increment raises
      OverflowError when the new date would pass datetime.max
      (9999-12-31, ordinal 3652059); the loop model returns that error
      and the handler maps it to HTTP 500, as the source's
      `except Exception` does.
    * HTTPException(500, detail) is `Except.error detail`.
-/
import Mathlib

set_option maxHeartbeats 1000000
set_option maxRecDepth 16000

/-! ## Elementary numeric helpers -/

/-- Model of `np.clip(x, 0, 1)` on a single value: `min 1 (max 0 x)`. -/
def clamp01 (x : ℚ) : ℚ := min 1 (max 0 x)

/-- Model of `ndvi_values = np.clip(ndvi_values, 0, 1)` applied to the vector of
normal draws. -/
def clipped (samples : List ℚ) : List ℚ := samples.map clamp01

/-- Model of `np.mean` of a list (0 on the empty list, which the code never hits:
it always works on 1000 samples). -/
def mean (l : List ℚ) : ℚ := l.sum / l.length

/-- Model of `np.min` of a list (0 on the empty list, never hit by the code). -/
def listMin : List ℚ → ℚ
  | [] => 0
  | [x] => x
  | x :: y :: t => min x (listMin (y :: t))

/-- Model of `np.max` of a list (0 on the empty list, never hit by the code). -/
def listMax : List ℚ → ℚ
  | [] => 0
  | [x] => x
  | x :: y :: t => max x (listMax (y :: t))
/-! ## Dates: CPython `datetime.strptime("%Y-%m-%d")`, ordinals, strftime -/

/-- A parsed calendar date (the `datetime` object, time-of-day is always
midnight in this service). -/
structure Date where
  year : ℕ
  month : ℕ
  day : ℕ
deriving DecidableEq, Repr

/-- Numeric value of a digit character. -/
def digVal (c : Char) : ℕ := c.toNat - '0'.toNat

/-- Leap-year test of CPython `datetime._is_leap`. -/
def isLeap (y : ℕ) : Bool := y % 4 = 0 && (y % 100 != 0 || y % 400 = 0)

/-- CPython `_DAYS_IN_MONTH[m]` (February entry is 28; the leap-day is
added separately where CPython does). -/
def daysInMonthA : ℕ → ℕ
  | 1 => 31 | 2 => 28 | 3 => 31 | 4 => 30 | 5 => 31 | 6 => 30
  | 7 => 31 | 8 => 31 | 9 => 30 | 10 => 31 | 11 => 30 | 12 => 31
  | _ => 0

/-- CPython `_DAYS_BEFORE_MONTH[m]`. -/
def daysBeforeMonthA : ℕ → ℕ
  | 1 => 0 | 2 => 31 | 3 => 59 | 4 => 90 | 5 => 120 | 6 => 151
  | 7 => 181 | 8 => 212 | 9 => 243 | 10 => 273 | 11 => 304 | 12 => 334
  | _ => 0

/-- CPython `_days_in_month(y, m)`. -/
def daysInMonth (y m : ℕ) : ℕ :=
  if m = 2 && isLeap y then 29 else daysInMonthA m

/-- The two-digit month alternatives `1[0-2]|0[1-9]` of CPython
`_strptime.TimeRE`'s pattern for `%m`. -/
def parseMonth2 : List Char → Option (ℕ × List Char)
  | '1' :: c :: rest =>
    if '0' ≤ c ∧ c ≤ '2' then some (10 + digVal c, rest) else none
  | '0' :: c :: rest =>
    if '1' ≤ c ∧ c ≤ '9' then some (digVal c, rest) else none
  | _ => none

/-- The one-digit month alternative `[1-9]` of the `%m` pattern. -/
def parseMonth1 : List Char → Option (ℕ × List Char)
  | c :: rest => if '1' ≤ c ∧ c ≤ '9' then some (digVal c, rest) else none
  | [] => none

/-- The `%d` pattern `3[01]|[12]\d|0[1-9]|[1-9]`: alternatives tried in
regex order, first match wins (nothing follows `%d` in the format, so the
regex engine never backtracks out of this choice). -/
def matchDay (cs : List Char) : Option (ℕ × List Char) :=
  (match cs with
   | '3' :: c :: rest =>
     if c = '0' ∨ c = '1' then some (30 + digVal c, rest) else none
   | _ => none) <|>
  (match cs with
   | c1 :: c2 :: rest =>
     if (c1 = '1' ∨ c1 = '2') ∧ c2.isDigit
     then some (digVal c1 * 10 + digVal c2, rest) else none
   | _ => none) <|>
  (match cs with
   | '0' :: c :: rest =>
     if '1' ≤ c ∧ c ≤ '9' then some (digVal c, rest) else none
   | _ => none) <|>
  (match cs with
   | c :: rest => if '1' ≤ c ∧ c ≤ '9' then some (digVal c, rest) else none
   | [] => none)

/-- Day at the end of the string: after the regex match, `strptime`
raises "unconverted data remains" unless the match consumed the whole
input, so any leftover makes the parse fail. -/
def parseDayEnd (cs : List Char) : Option ℕ :=
  match matchDay cs with
  | some (d, []) => some d
  | _ => none

/-- Month, literal dash, then day: the two-digit month alternatives are
tried first; if the rest of the pattern fails the engine backtracks to
the one-digit alternative (which can only apply when the two-digit one
did not reach its dash, since a month digit is never a dash). -/
def parseMD (cs : List Char) : Option (ℕ × ℕ) :=
  (match parseMonth2 cs with
   | some (m, '-' :: rest) => (parseDayEnd rest).map (fun d => (m, d))
   | _ => none) <|>
  (match parseMonth1 cs with
   | some (m, '-' :: rest) => (parseDayEnd rest).map (fun d => (m, d))
   | _ => none)

/-- Model of `datetime.strptime(s, "%Y-%m-%d")` on the character list: a
four-digit year (`\d\d\d\d`), dash, month, dash, day, whole string
consumed, followed by the `datetime` constructor's range checks
(`MINYEAR = 1`; day within the month's length). -/
def parseDateChars (cs : List Char) : Option Date :=
  match cs with
  | c1 :: c2 :: c3 :: c4 :: '-' :: rest =>
    if c1.isDigit ∧ c2.isDigit ∧ c3.isDigit ∧ c4.isDigit then
      match parseMD rest with
      | some (m, d) =>
        let y := ((digVal c1 * 10 + digVal c2) * 10 + digVal c3) * 10 + digVal c4
        if 1 ≤ y ∧ d ≤ daysInMonth y m then some ⟨y, m, d⟩ else none
      | none => none
    else none
  | _ => none

/-- Model of `datetime.strptime(s, "%Y-%m-%d")`; `none` is the raised
`ValueError`. -/
def parseDate (s : String) : Option Date := parseDateChars s.toList

/-- CPython's strptime `ValueError` text for an unparsable string (the
message only matters through the endpoint prefix in front of it). -/
def strptimeMsg (s : String) : String :=
  "time data '" ++ s ++ "' does not match format '%Y-%m-%d'"

/-- Zero-padded two-digit field of `strftime("%Y-%m-%d")`. -/
def pad2 (n : ℕ) : String := if n < 10 then "0" ++ toString n else toString n

/-- Zero-padded four-digit year of `strftime("%Y-%m-%d")`. -/
def pad4 (n : ℕ) : String :=
  if n < 10 then "000" ++ toString n
  else if n < 100 then "00" ++ toString n
  else if n < 1000 then "0" ++ toString n
  else toString n

/-- Model of `d.strftime("%Y-%m-%d")`. -/
def formatDate (t : Date) : String :=
  pad4 t.year ++ "-" ++ pad2 t.month ++ "-" ++ pad2 t.day

/-- CPython `datetime._ymd2ord`: proleptic-Gregorian ordinal of a date,
with ordinal 1 = 0001-01-01. -/
def ymd2ord (t : Date) : ℕ :=
  (t.year - 1) * 365 + (t.year - 1) / 4 - (t.year - 1) / 100
    + (t.year - 1) / 400
    + daysBeforeMonthA t.month
    + (if 2 < t.month ∧ isLeap t.year then 1 else 0)
    + t.day

/-- CPython `datetime._ord2ymd`: date of a proleptic-Gregorian
ordinal. -/
def ord2ymd (n : ℕ) : Date :=
  let n0 := n - 1
  let n400 := n0 / 146097
  let r400 := n0 % 146097
  let n100 := r400 / 36524
  let r100 := r400 % 36524
  let n4 := r100 / 1461
  let r4 := r100 % 1461
  let n1 := r4 / 365
  let rr := r4 % 365
  let year := n400 * 400 + 1 + n100 * 100 + n4 * 4 + n1
  if n1 = 4 ∨ n100 = 4 then ⟨year - 1, 12, 31⟩
  else
    let leap := n1 = 3 ∧ (n4 ≠ 24 ∨ n100 = 3)
    let month := (rr + 50) >>> 5
    let preceding := daysBeforeMonthA month + (if 2 < month ∧ leap then 1 else 0)
    if rr < preceding then
      let month' := month - 1
      let preceding' :=
        preceding - (daysInMonthA month' + (if month' = 2 ∧ leap then 1 else 0))
      ⟨year, month', rr - preceding' + 1⟩
    else ⟨year, month, rr - preceding + 1⟩

/-- Model of `current.month` of the datetime holding ordinal `n`. -/
def monthOfOrd (n : ℕ) : ℕ := (ord2ymd n).month

/-- Model of `current.strftime("%Y-%m-%d")` of the datetime holding ordinal
`n`. -/
def formatOrd (n : ℕ) : String := formatDate (ord2ymd n)

/-! ## Seasonal factor and the POST /api/ndvi handler -/

/-- Model of `season_factor = 0.5 + 0.3 * np.sin((month - 3) * np.pi / 6)`,
identical lines in get_ndvi and get_historical_ndvi. -/
noncomputable def seasonFactor (month : ℕ) : ℝ :=
  0.5 + 0.3 * Real.sin (((month : ℝ) - 3) * Real.pi / 6)

/-- Model of `base_ndvi = max(0.05, min(0.95, season_factor + random.uniform(-0.15,
0.15)))` with `u1` the uniform draw.  It is the mean handed to
`np.random.normal`; since the normal draws themselves are an input of
the model, nothing downstream reads it. -/
noncomputable def baseNdvi (month : ℕ) (u1 : ℝ) : ℝ :=
  max 0.05 (min 0.95 (seasonFactor month + u1))

/-- One zone record of the NDVI response. -/
structure NDVIZone where
  min : ℚ
  max : ℚ
  average : ℚ
  count : ℕ
  percentage : ℚ
deriving DecidableEq, Repr

/-- Model of `zone_edges = np.linspace(min_ndvi, max_ndvi, 6)`: entry `i` is
`lo + (hi - lo) * i / 5`. -/
def zoneEdges (lo hi : ℚ) (i : ℕ) : ℚ := lo + (hi - lo) * i / 5

/-- Membership test of the zone filter
`(ndvi_values >= zone_edges[i]) & (ndvi_values < zone_edges[i+1])`. -/
def zoneMem (lo hi : ℚ) (i : ℕ) (x : ℚ) : Bool :=
  decide (zoneEdges lo hi i ≤ x) && decide (x < zoneEdges lo hi (i + 1))

/-- Model of `zone_data`: the samples falling in bin `i`. -/
def zoneData (lo hi : ℚ) (c : List ℚ) (i : ℕ) : List ℚ :=
  c.filter (zoneMem lo hi i)

/-- Body of the zone loop: `if len(zone_data) > 0: zones.append(...)`. -/
def mkZone (lo hi : ℚ) (c : List ℚ) (i : ℕ) : Option NDVIZone :=
  if 0 < (zoneData lo hi c i).length then
    some ⟨zoneEdges lo hi i, zoneEdges lo hi (i + 1), mean (zoneData lo hi c i),
          (zoneData lo hi c i).length,
          ((zoneData lo hi c i).length : ℚ) / (c.length : ℚ) * 100⟩
  else none

/-- Model of `for i in range(5): ...` building the zone list. -/
def zonesOf (c : List ℚ) : List NDVIZone :=
  (List.range 5).filterMap (mkZone (listMin c) (listMax c) c)

/-- The opaque boundary input (`Boundary` pydantic model); validated for
shape only, never used numerically. -/
structure Boundary where
  type : String
  coordinates : List (List (List ℚ))

/-- The `NDVIResponse` pydantic model. -/
structure NDVIResponse where
  average_ndvi : ℚ
  min_ndvi : ℚ
  max_ndvi : ℚ
  ndvi_values : List ℚ
  ndvi_image_url : String
  zones : List NDVIZone

/-- The POST /api/ndvi handler `get_ndvi`.  `samples` are the 1000 draws
of `np.random.normal(base_ndvi, 0.1, num_samples)` and `idx` the
positions picked by `np.random.choice(ndvi_values, sample_size,
replace=False)`; both samplers' output properties enter the theorems as
hypotheses.  A raised `ValueError` from strptime becomes the
`HTTPException(500, "Error processing NDVI data: ...")` branch. -/
def get_ndvi (_boundaries : Boundary) (date : String)
    (samples : List ℚ) (idx : List ℕ) : Except String NDVIResponse :=
  match parseDate date with
  | none => .error ("Error processing NDVI data: " ++ strptimeMsg date)
  | some target_date =>
    let ndvi_values := clipped samples
    let avg_ndvi := mean ndvi_values
    let min_ndvi := listMin ndvi_values
    let max_ndvi := listMax ndvi_values
    let zones := zonesOf ndvi_values
    let ndvi_image_url :=
      "https://example.com/ndvi-images/" ++ formatDate target_date
    let sample_size := min 100 ndvi_values.length
    let sampled_values := (idx.take sample_size).map (fun i => ndvi_values.getD i 0)
    .ok ⟨avg_ndvi, min_ndvi, max_ndvi, sampled_values, ndvi_image_url, zones⟩

/-! ## The GET /api/historical-ndvi handler -/

/-- Model of `datetime.max.toordinal()`: the proleptic-Gregorian ordinal
of 9999-12-31 (`MAXYEAR = 9999`), which is 3652059. -/
def maxOrdinal : ℕ := ymd2ord ⟨9999, 12, 31⟩

/-- Model of `while current <= end: dates.append(...); current += timedelta(16)`,
collected as the list of ordinals visited.  The increment
`current += timedelta(days=16)` raises `OverflowError("date value out of
range")` when the new date would pass `datetime.max`; the exception
aborts the loop (its partial output is discarded) and the handler turns
it into HTTP 500.  `fuel` bounds the iteration count; `histDays`
supplies fuel `e + 1 - s`, which dominates the number of 16-day steps
from `s` to `e`. -/
def histLoop (current e : ℕ) : ℕ → Except String (List ℕ)
  | 0 => .ok []
  | fuel + 1 =>
    if current ≤ e then
      if current + 16 ≤ maxOrdinal then
        match histLoop (current + 16) e fuel with
        | .ok ds => .ok (current :: ds)
        | .error m => .error m
      else .error "date value out of range"
    else .ok []

/-- The ordinals the historical loop visits between start and end, or
the `OverflowError` message when the 16-day increment passes
`datetime.max` during some iteration. -/
def histDays (s e : ℕ) : Except String (List ℕ) := histLoop s e (e + 1 - s)

/-- One update of the loop state:
`last_ndvi = max(0.1, min(0.9, trend_factor * season_factor +
(1 - trend_factor) * last_ndvi + random.uniform(-0.05, 0.05) *
random_factor))` with `trend_factor = 0.7`, `random_factor = 0.3`, the
uniform draw `r`, and the month taken from the ordinal `d` being
visited. -/
noncomputable def histStep (d : ℕ) (last : ℝ) (r : ℚ) : ℝ :=
  max 0.1 (min 0.9 (0.7 * seasonFactor (monthOfOrd d) + (1 - 0.7) * last + (r : ℝ) * 0.3))

/-- The `ndvi_values` list built by the historical loop: one appended
value per visited ordinal, each obtained from the previous state;
`rs k` is the uniform draw of iteration `k`. -/
noncomputable def histValues (rs : ℕ → ℚ) : ℕ → List ℕ → ℝ → List ℝ
  | _, [], _ => []
  | k, d :: ds, last => histStep d last (rs k) :: histValues rs (k + 1) ds (histStep d last (rs k))

/-- The GET /api/historical-ndvi handler `get_historical_ndvi`.  The
four bbox floats are unused; `r0` is the draw of
`last_ndvi = 0.4 + random.uniform(-0.1, 0.1)` and `rs` the per-iteration
draws. -/
noncomputable def get_historical_ndvi
    (_min_lon _min_lat _max_lon _max_lat : ℚ)
    (start_date end_date : String) (r0 : ℚ) (rs : ℕ → ℚ) :
    Except String (List String × List ℝ) :=
  match parseDate start_date with
  | none => .error ("Error processing historical NDVI: " ++ strptimeMsg start_date)
  | some s =>
    match parseDate end_date with
    | none => .error ("Error processing historical NDVI: " ++ strptimeMsg end_date)
    | some e =>
      match histDays (ymd2ord s) (ymd2ord e) with
      | .error m => .error ("Error processing historical NDVI: " ++ m)
      | .ok days =>
        .ok (days.map formatOrd, histValues rs 0 days (0.4 + (r0 : ℝ)))

/-! ## The GET /api/satellite-imagery handler -/

/-- The GET /api/satellite-imagery handler `get_satellite_imagery`: the
bbox floats are unused and the `bands` string is spliced into the URL
template unchecked. -/
def get_satellite_imagery
    (_min_lon _min_lat _max_lon _max_lat : ℚ)
    (date : String) (bands : String) : Except String String :=
  match parseDate date with
  | none => .error ("Error fetching satellite imagery: " ++ strptimeMsg date)
  | some target_date =>
    .ok ("https://example.com/satellite-images/" ++ bands ++ "/"
          ++ formatDate target_date)

/-- Modelled from the spec: "calendar dates parsed from fixed-format
strings (`YYYY-MM-DD`)" — the literal fixed format: four digits, dash,
two digits, dash, two digits.  This is the spec-side notion C5 quantifies
over, to be compared with what the code's parser accepts. -/
def matchesFixedFormatYYYYMMDD (s : String) : Bool :=
  match s.toList with
  | [y1, y2, y3, y4, h1, m1, m2, h2, d1, d2] =>
    y1.isDigit && y2.isDigit && y3.isDigit && y4.isDigit
      && h1 = '-' && m1.isDigit && m2.isDigit && h2 = '-'
      && d1.isDigit && d2.isDigit
  | _ => false

/-- A fixed concrete input for witnesses: the 1000 normal draws all
equal to 1/2. -/
def sampleInput : List ℚ := List.replicate 1000 (1/2)

/-- The response `get_ndvi` computes on `sampleInput` with date
2024-01-01 and subsample indices `List.range 100`. -/
def sampleResp : NDVIResponse :=
  ⟨mean (clipped sampleInput), listMin (clipped sampleInput),
   listMax (clipped sampleInput),
   ((List.range 100).take (min 100 (clipped sampleInput).length)).map
     (fun i => (clipped sampleInput).getD i 0),
   "https://example.com/ndvi-images/" ++ formatDate ⟨2024, 1, 1⟩,
   zonesOf (clipped sampleInput)⟩

/-! ## Supporting lemmas -/

theorem listMin_le (l : List ℚ) : ∀ y ∈ l, listMin l ≤ y := by
  induction l with
  | nil => intro y hy; cases hy
  | cons x t ih =>
    intro y hy
    cases t with
    | nil =>
      rcases List.mem_cons.mp hy with h | h
      · subst h; simp [listMin]
      · cases h
    | cons z t' =>
      rcases List.mem_cons.mp hy with h | h
      · subst h; rw [listMin]; exact min_le_left _ _
      · rw [listMin]; exact le_trans (min_le_right _ _) (ih y h)

theorem le_listMax (l : List ℚ) : ∀ y ∈ l, y ≤ listMax l := by
  induction l with
  | nil => intro y hy; cases hy
  | cons x t ih =>
    intro y hy
    cases t with
    | nil =>
      rcases List.mem_cons.mp hy with h | h
      · subst h; simp [listMax]
      · cases h
    | cons z t' =>
      rcases List.mem_cons.mp hy with h | h
      · subst h; rw [listMax]; exact le_max_left _ _
      · rw [listMax]; exact le_trans (ih y h) (le_max_right _ _)

theorem listMin_mem (l : List ℚ) (h : l ≠ []) : listMin l ∈ l := by
  induction l with
  | nil => cases h rfl
  | cons x t ih =>
    cases t with
    | nil => simp [listMin]
    | cons z t' =>
      rcases min_choice x (listMin (z :: t')) with hc | hc
      · rw [listMin, hc]; exact List.mem_cons_self _ _
      · rw [listMin, hc]
        exact List.mem_cons_of_mem _ (ih (by simp))

theorem listMax_mem (l : List ℚ) (h : l ≠ []) : listMax l ∈ l := by
  induction l with
  | nil => cases h rfl
  | cons x t ih =>
    cases t with
    | nil => simp [listMax]
    | cons z t' =>
      rcases max_choice x (listMax (z :: t')) with hc | hc
      · rw [listMax, hc]; exact List.mem_cons_self _ _
      · rw [listMax, hc]
        exact List.mem_cons_of_mem _ (ih (by simp))

theorem length_mul_le_sum (l : List ℚ) (a : ℚ) (h : ∀ y ∈ l, a ≤ y) :
    (l.length : ℚ) * a ≤ l.sum := by
  induction l with
  | nil => simp
  | cons x t ih =>
    have hx : a ≤ x := h x (List.mem_cons_self _ _)
    have ht : (t.length : ℚ) * a ≤ t.sum :=
      ih (fun y hy => h y (List.mem_cons_of_mem _ hy))
    simp only [List.length_cons, List.sum_cons]
    push_cast
    linarith

theorem sum_le_length_mul (l : List ℚ) (b : ℚ) (h : ∀ y ∈ l, y ≤ b) :
    l.sum ≤ (l.length : ℚ) * b := by
  induction l with
  | nil => simp
  | cons x t ih =>
    have hx : x ≤ b := h x (List.mem_cons_self _ _)
    have ht : t.sum ≤ (t.length : ℚ) * b :=
      ih (fun y hy => h y (List.mem_cons_of_mem _ hy))
    simp only [List.length_cons, List.sum_cons]
    push_cast
    linarith

theorem le_mean (l : List ℚ) (a : ℚ) (hne : l ≠ []) (h : ∀ y ∈ l, a ≤ y) :
    a ≤ mean l := by
  have hlen : 0 < (l.length : ℚ) := by
    have : 0 < l.length := List.length_pos.mpr hne
    exact_mod_cast this
  rw [mean, le_div_iff₀ hlen]
  have := length_mul_le_sum l a h
  linarith [this]

theorem mean_le (l : List ℚ) (b : ℚ) (hne : l ≠ []) (h : ∀ y ∈ l, y ≤ b) :
    mean l ≤ b := by
  have hlen : 0 < (l.length : ℚ) := by
    have : 0 < l.length := List.length_pos.mpr hne
    exact_mod_cast this
  rw [mean, div_le_iff₀ hlen]
  have := sum_le_length_mul l b h
  linarith [this]

theorem clamp01_nonneg (x : ℚ) : 0 ≤ clamp01 x := by
  rw [clamp01]
  exact le_min (by norm_num) (le_max_left _ _)

theorem clamp01_le_one (x : ℚ) : clamp01 x ≤ 1 := min_le_left _ _

theorem clipped_all_bounds (samples : List ℚ) :
    ∀ y ∈ clipped samples, 0 ≤ y ∧ y ≤ 1 := by
  intro y hy
  rw [clipped] at hy
  rcases List.mem_map.mp hy with ⟨z, _, rfl⟩
  exact ⟨clamp01_nonneg z, clamp01_le_one z⟩

/-! ## Lemmas about the historical loop -/

theorem histLoop_head (e : ℕ) (fuel c : ℕ) (ds : List ℕ)
    (h : histLoop c e fuel = .ok ds) (hne : ds ≠ []) : ds.getD 0 0 = c := by
  cases fuel with
  | zero =>
    rw [histLoop] at h
    cases h
    exact absurd rfl hne
  | succ f =>
    rw [histLoop] at h
    by_cases hc : c ≤ e
    · rw [if_pos hc] at h
      by_cases hb : c + 16 ≤ maxOrdinal
      · rw [if_pos hb] at h
        cases hrec : histLoop (c + 16) e f with
        | ok ds2 => rw [hrec] at h; cases h; rfl
        | error m => rw [hrec] at h; cases h
      · rw [if_neg hb] at h; cases h
    · rw [if_neg hc] at h
      cases h
      exact absurd rfl hne

theorem histLoop_spacing (e : ℕ) :
    ∀ (fuel c : ℕ) (ds : List ℕ), histLoop c e fuel = .ok ds →
      ∀ i, i + 1 < ds.length → ds.getD (i + 1) 0 = ds.getD i 0 + 16 := by
  intro fuel
  induction fuel with
  | zero =>
    intro c ds h i hi
    rw [histLoop] at h
    cases h
    simp at hi
  | succ f ih =>
    intro c ds h i hi
    rw [histLoop] at h
    by_cases hc : c ≤ e
    · rw [if_pos hc] at h
      by_cases hb : c + 16 ≤ maxOrdinal
      · rw [if_pos hb] at h
        cases hrec : histLoop (c + 16) e f with
        | error m => rw [hrec] at h; cases h
        | ok ds2 =>
          rw [hrec] at h
          cases h
          cases i with
          | zero =>
            have hne : ds2 ≠ [] := by
              intro hnil
              rw [hnil] at hi
              simp at hi
            simp only [List.getD_cons_succ, List.getD_cons_zero]
            exact histLoop_head e f (c + 16) ds2 hrec hne
          | succ j =>
            have h2 : j + 1 < ds2.length := by simpa using hi
            simp only [List.getD_cons_succ]
            exact ih (c + 16) ds2 hrec j h2
      · rw [if_neg hb] at h; cases h
    · rw [if_neg hc] at h
      cases h
      simp at hi

theorem histLoop_ok (e : ℕ) (hbound : e + 16 ≤ maxOrdinal) :
    ∀ (fuel c : ℕ), ∃ ds, histLoop c e fuel = .ok ds := by
  intro fuel
  induction fuel with
  | zero => intro c; exact ⟨[], by rw [histLoop]⟩
  | succ f ih =>
    intro c
    by_cases hc : c ≤ e
    · have hb : c + 16 ≤ maxOrdinal := by omega
      rcases ih (c + 16) with ⟨ds2, hds2⟩
      refine ⟨c :: ds2, ?_⟩
      rw [histLoop, if_pos hc, if_pos hb, hds2]
    · exact ⟨[], by rw [histLoop, if_neg hc]⟩

theorem histValues_length (rs : ℕ → ℚ) :
    ∀ (ds : List ℕ) (k : ℕ) (last : ℝ),
      (histValues rs k ds last).length = ds.length := by
  intro ds
  induction ds with
  | nil => intro k last; simp [histValues]
  | cons d t ih => intro k last; simp [histValues, ih]

theorem histValues_head (rs : ℕ → ℚ) (k : ℕ) (last : ℝ) (d : ℕ) (ds : List ℕ) :
    (histValues rs k (d :: ds) last).getD 0 0 = histStep d last (rs k) := by
  simp [histValues]

theorem histStep_bounds (d : ℕ) (last : ℝ) (r : ℚ) :
    0.1 ≤ histStep d last r ∧ histStep d last r ≤ 0.9 := by
  rw [histStep]
  exact ⟨le_max_left _ _, max_le (by norm_num) (min_le_left _ _)⟩

theorem histValues_mem_bounds (rs : ℕ → ℚ) :
    ∀ (ds : List ℕ) (k : ℕ) (last : ℝ),
      ∀ v ∈ histValues rs k ds last, 0.1 ≤ v ∧ v ≤ 0.9 := by
  intro ds
  induction ds with
  | nil => intro k last v hv; simp [histValues] at hv
  | cons d t ih =>
    intro k last v hv
    rw [histValues] at hv
    rcases List.mem_cons.mp hv with h | h
    · subst h; exact histStep_bounds _ _ _
    · exact ih _ _ v h

theorem histValues_get_succ (rs : ℕ → ℚ) :
    ∀ (ds : List ℕ) (k : ℕ) (last : ℝ) (i : ℕ), i + 1 < ds.length →
      (histValues rs k ds last).getD (i + 1) 0 =
        histStep (ds.getD (i + 1) 0)
          ((histValues rs k ds last).getD i 0) (rs (k + i + 1)) := by
  intro ds
  induction ds with
  | nil => intro k last i h; simp at h
  | cons d t ih =>
    intro k last i h
    cases i with
    | zero =>
      cases t with
      | nil => simp at h
      | cons d2 t2 =>
        rw [histValues]
        simp only [List.getD_cons_succ, List.getD_cons_zero]
        rw [histValues_head]
    | succ j =>
      have h' : j + 1 < t.length := by simpa using h
      rw [histValues]
      simp only [List.getD_cons_succ]
      have hidx : k + (j + 1) + 1 = (k + 1) + j + 1 := by omega
      rw [hidx]
      exact ih (k + 1) _ j h'

/-! ## Claim C7: the seasonal baseline stays in [0.2, 0.8] -/

/-- C7: for every calendar month 1 through 12, the seasonal baseline
`seasonFactor = 0.5 + 0.3 * sin((month - 3) * π / 6)` shared by the
field-index computation (`baseNdvi`) and the historical-series
computation (`histStep`) lies in [0.2, 0.8]. -/
theorem seasonFactor_range (m : ℕ) (h1 : 1 ≤ m) (h2 : m ≤ 12) :
    0.2 ≤ seasonFactor m ∧ seasonFactor m ≤ 0.8 := by
  have hs1 := Real.neg_one_le_sin (((m : ℝ) - 3) * Real.pi / 6)
  have hs2 := Real.sin_le_one (((m : ℝ) - 3) * Real.pi / 6)
  rw [seasonFactor]
  constructor <;> nlinarith

theorem seasonFactor_range_witness :
    (1 ≤ 7 ∧ 7 ≤ 12) ∧ 0.2 ≤ seasonFactor 7 ∧ seasonFactor 7 ≤ 0.8 :=
  ⟨by decide, seasonFactor_range 7 (by decide) (by decide)⟩

/-! ## Claim C8: the satellite-imagery URL is a pure function of
(bands, formatted date), with the bands label embedded verbatim -/

/-- C8: `get_satellite_imagery` returns the same URL for any two
bounding boxes once `bands` and `date` agree, and on a parsable date it
returns the template URL with the caller's `bands` string — whatever it
is — spliced in verbatim. -/
theorem satellite_url_pure_and_verbatim
    (a b c d a2 b2 c2 d2 : ℚ) (date bands : String) :
    get_satellite_imagery a b c d date bands
      = get_satellite_imagery a2 b2 c2 d2 date bands ∧
    ∀ t, parseDate date = some t →
      get_satellite_imagery a b c d date bands
        = .ok ("https://example.com/satellite-images/" ++ bands ++ "/"
                ++ formatDate t) := by
  refine ⟨rfl, ?_⟩
  intro t ht
  rw [get_satellite_imagery, ht]

theorem satellite_url_pure_and_verbatim_witness :
    (get_satellite_imagery 1 2 3 4 "2024-07-15" "x<arbitrary>"
      = get_satellite_imagery 9 8 7 6 "2024-07-15" "x<arbitrary>") ∧
    get_satellite_imagery 1 2 3 4 "2024-07-15" "x<arbitrary>"
      = Except.ok "https://example.com/satellite-images/x<arbitrary>/2024-07-15" := by
  have h := satellite_url_pure_and_verbatim 1 2 3 4 9 8 7 6 "2024-07-15" "x<arbitrary>"
  exact ⟨h.1, (h.2 ⟨2024, 7, 15⟩ (by decide)).trans (congrArg Except.ok (by decide))⟩

/-! ## Claim C9: dates and values of the historical response pair up -/

/-- C9: every successful historical response has as many dates as NDVI
values — the loop appends one date and one value per iteration. -/
theorem historical_lengths_align
    (q1 q2 q3 q4 : ℚ) (sd ed : String) (r0 : ℚ) (rs : ℕ → ℚ)
    (out : List String × List ℝ)
    (h : get_historical_ndvi q1 q2 q3 q4 sd ed r0 rs = .ok out) :
    out.1.length = out.2.length := by
  rw [get_historical_ndvi] at h
  cases hs : parseDate sd with
  | none => rw [hs] at h; cases h
  | some s =>
    simp only [hs] at h
    cases he : parseDate ed with
    | none => simp only [he] at h; cases h
    | some e =>
      simp only [he] at h
      cases hd : histDays (ymd2ord s) (ymd2ord e) with
      | error m => simp only [hd] at h; cases h
      | ok days =>
        simp only [hd] at h
        cases h
        simp [List.length_map, histValues_length]

theorem historical_lengths_align_witness :
    (([] : List String).length = ([] : List ℝ).length) :=
  historical_lengths_align 0 0 0 0 "2024-01-02" "2024-01-01" 0 (fun _ => 0)
    ([], []) rfl

/-! ## Claim C4: start > end gives an empty series; start = end gives
exactly one entry dated at the start -/

theorem histDays_eq_nil (s e : ℕ) (h : e < s) : histDays s e = .ok [] := by
  unfold histDays
  have h0 : e + 1 - s = 0 := by omega
  rw [h0]
  rfl

theorem histDays_single (s e : ℕ) (h : s = e) (hb : s + 16 ≤ maxOrdinal) :
    histDays s e = .ok [s] := by
  subst h
  unfold histDays
  have h1 : s + 1 - s = 1 := by omega
  rw [h1, show (1 : ℕ) = 0 + 1 from rfl, histLoop, if_pos (le_refl s),
    if_pos hb]
  have h0 : histLoop (s + 16) s 0 = .ok [] := by rw [histLoop]
  rw [h0]

/-- C4 as stated is false of the code at the upper end of the calendar:
at start = end = 9999-12-31 the loop appends its one entry and then
`current += timedelta(days=16)` overflows `datetime.max`, so the handler
answers HTTP 500 — not a one-entry sequence. -/
theorem historical_degenerate_claim_counterexample :
    parseDate "9999-12-31" = some ⟨9999, 12, 31⟩ ∧
    get_historical_ndvi 0 0 0 0 "9999-12-31" "9999-12-31" 0 (fun _ => 0)
      = .error "Error processing historical NDVI: date value out of range" := by
  exact ⟨by decide, rfl⟩

/-- C4 (amended): with parsable dates, a start after the end yields the
empty response (no error, no iteration happens), and start = end yields
exactly one entry whose date is the start date (formatted by strftime)
and one value — provided the single 16-day increment does not pass
`datetime.max`, i.e. the start date is on or before 9999-12-15;
at start = end = 9999-12-31 the increment overflows and the endpoint
returns HTTP 500 instead. -/
theorem historical_degenerate_ranges
    (q1 q2 q3 q4 : ℚ) (sd ed : String) (ts te : Date) (r0 : ℚ) (rs : ℕ → ℚ)
    (hs : parseDate sd = some ts) (he : parseDate ed = some te) :
    (ymd2ord te < ymd2ord ts →
      get_historical_ndvi q1 q2 q3 q4 sd ed r0 rs = .ok ([], [])) ∧
    (ymd2ord ts = ymd2ord te → ymd2ord ts + 16 ≤ maxOrdinal →
      get_historical_ndvi q1 q2 q3 q4 sd ed r0 rs
        = .ok ([formatOrd (ymd2ord ts)],
               [histStep (ymd2ord ts) (0.4 + (r0 : ℝ)) (rs 0)])) := by
  constructor
  · intro hlt
    simp only [get_historical_ndvi, hs, he, histDays_eq_nil _ _ hlt]
    simp [histValues]
  · intro heq hb
    simp only [get_historical_ndvi, hs, he, histDays_single _ _ heq hb]
    simp [histValues]

theorem historical_degenerate_ranges_witness :
    get_historical_ndvi 0 0 0 0 "2024-01-01" "2024-01-01" 0 (fun _ => 0)
      = .ok (["2024-01-01"],
             [histStep (ymd2ord ⟨2024, 1, 1⟩) (0.4 + ((0 : ℚ) : ℝ)) 0]) := by
  have h := (historical_degenerate_ranges 0 0 0 0 "2024-01-01" "2024-01-01"
    ⟨2024, 1, 1⟩ ⟨2024, 1, 1⟩ 0 (fun _ => 0) (by decide) (by decide)).2 rfl
    (by decide)
  rw [h]
  rw [show formatOrd (ymd2ord ⟨2024, 1, 1⟩) = "2024-01-01" from by decide]

/-! ## Claim C5: malformed dates and the uniform 500-with-prefix policy -/

/-- C5 as stated is false of the code: the claim quantifies over every
string that fails the fixed format `YYYY-MM-DD`, but CPython's
`strptime("%Y-%m-%d")` also accepts non-zero-padded months and days, so
"2024-1-1" — which does not match the fixed format — parses and the
endpoint answers 200 OK with a result instead of an HTTP 500 error. -/
theorem malformed_date_claim_counterexample :
    matchesFixedFormatYYYYMMDD "2024-1-1" = false ∧
    get_satellite_imagery 0 0 0 0 "2024-1-1" "true-color"
      = Except.ok "https://example.com/satellite-images/true-color/2024-01-01" := by
  constructor
  · decide
  · rw [get_satellite_imagery, show parseDate "2024-1-1" = some ⟨2024, 1, 1⟩ from by decide]
    exact congrArg Except.ok (by decide)

/-- C5 (amended): for every date string the `%Y-%m-%d` parser rejects
(the parser also accepts one-digit months and days, so this is a proper
subset of the strings failing the fixed `YYYY-MM-DD` shape), each of the
three date-accepting endpoints returns an HTTP 500 error carrying the
single parser message behind its endpoint-specific prefix, and no
partial result. -/
theorem malformed_date_rejected
    (s : String) (h : parseDate s = none) :
    (∀ b samples idx, get_ndvi b s samples idx
        = .error ("Error processing NDVI data: " ++ strptimeMsg s)) ∧
    (∀ q1 q2 q3 q4 ed r0 rs, get_historical_ndvi q1 q2 q3 q4 s ed r0 rs
        = .error ("Error processing historical NDVI: " ++ strptimeMsg s)) ∧
    (∀ q1 q2 q3 q4 sd t r0 rs, parseDate sd = some t →
      get_historical_ndvi q1 q2 q3 q4 sd s r0 rs
        = .error ("Error processing historical NDVI: " ++ strptimeMsg s)) ∧
    (∀ q1 q2 q3 q4 bands, get_satellite_imagery q1 q2 q3 q4 s bands
        = .error ("Error fetching satellite imagery: " ++ strptimeMsg s)) := by
  refine ⟨?_, ?_, ?_, ?_⟩
  · intro b samples idx; rw [get_ndvi, h]
  · intro q1 q2 q3 q4 ed r0 rs; rw [get_historical_ndvi, h]
  · intro q1 q2 q3 q4 sd t r0 rs hsd; rw [get_historical_ndvi, hsd, h]
  · intro q1 q2 q3 q4 bands; rw [get_satellite_imagery, h]

theorem malformed_date_rejected_witness :
    get_ndvi ⟨"Polygon", []⟩ "15-07-2024" [] []
      = .error ("Error processing NDVI data: " ++ strptimeMsg "15-07-2024") ∧
    get_historical_ndvi 0 0 0 0 "15-07-2024" "2024-01-01" 0 (fun _ => 0)
      = .error ("Error processing historical NDVI: " ++ strptimeMsg "15-07-2024") ∧
    get_historical_ndvi 0 0 0 0 "2024-01-01" "15-07-2024" 0 (fun _ => 0)
      = .error ("Error processing historical NDVI: " ++ strptimeMsg "15-07-2024") ∧
    get_satellite_imagery 0 0 0 0 "15-07-2024" "true-color"
      = .error ("Error fetching satellite imagery: " ++ strptimeMsg "15-07-2024") := by
  have h := malformed_date_rejected "15-07-2024" (by decide)
  exact ⟨h.1 _ _ _, h.2.1 0 0 0 0 "2024-01-01" 0 (fun _ => 0),
    h.2.2.1 0 0 0 0 "2024-01-01" ⟨2024, 1, 1⟩ 0 (fun _ => 0) (by decide),
    h.2.2.2 0 0 0 0 "true-color"⟩

/-! ## Claim C3: 16-day spacing, [0.1,0.9] bounds, and the AR recurrence -/

/-- C3 as stated is false of the code at the upper end of the calendar:
it asserts the series is produced for every parsable start ≤ end, but
when the loop visits a date on or after 9999-12-16 the 16-day increment
overflows `datetime.max` and the handler answers HTTP 500 with no
entries — here at start = 9999-12-16, end = 9999-12-31. -/
theorem historical_series_claim_counterexample :
    parseDate "9999-12-16" = some ⟨9999, 12, 16⟩ ∧
    parseDate "9999-12-31" = some ⟨9999, 12, 31⟩ ∧
    ymd2ord ⟨9999, 12, 16⟩ ≤ ymd2ord ⟨9999, 12, 31⟩ ∧
    get_historical_ndvi 0 0 0 0 "9999-12-16" "9999-12-31" 0 (fun _ => 0)
      = .error "Error processing historical NDVI: date value out of range" := by
  exact ⟨by decide, by decide, by decide, rfl⟩

/-- C3 (amended): for parsable dates with start ≤ end and the end date
on or before 9999-12-15 (so no 16-day increment passes `datetime.max` —
without that bound the loop can overflow and the endpoint answers
HTTP 500), the historical response succeeds and is the formatted visited
ordinal grid paired with the value sequence; consecutive visited
ordinals differ by exactly 16 days, every value lies in [0.1, 0.9], and
each value arises from the previous state by `histStep`
(0.7·seasonFactor + 0.3·last + draw·0.3, clamped into [0.1, 0.9]). -/
theorem historical_series_recurrence
    (q1 q2 q3 q4 : ℚ) (sd ed : String) (ts te : Date) (r0 : ℚ) (rs : ℕ → ℚ)
    (hs : parseDate sd = some ts) (he : parseDate ed = some te)
    (hle : ymd2ord ts ≤ ymd2ord te)
    (hbound : ymd2ord te + 16 ≤ maxOrdinal) :
    ∃ days : List ℕ,
      histDays (ymd2ord ts) (ymd2ord te) = .ok days ∧
      get_historical_ndvi q1 q2 q3 q4 sd ed r0 rs
        = .ok (days.map formatOrd, histValues rs 0 days (0.4 + (r0 : ℝ))) ∧
      (∀ i, i + 1 < days.length →
        days.getD (i + 1) 0 = days.getD i 0 + 16) ∧
      (∀ v ∈ histValues rs 0 days (0.4 + (r0 : ℝ)), 0.1 ≤ v ∧ v ≤ 0.9) ∧
      (0 < days.length →
        (histValues rs 0 days (0.4 + (r0 : ℝ))).getD 0 0
          = histStep (days.getD 0 0) (0.4 + (r0 : ℝ)) (rs 0)) ∧
      (∀ i, i + 1 < days.length →
        (histValues rs 0 days (0.4 + (r0 : ℝ))).getD (i + 1) 0
          = histStep (days.getD (i + 1) 0)
              ((histValues rs 0 days (0.4 + (r0 : ℝ))).getD i 0)
              (rs (i + 1))) := by
  rcases histLoop_ok (ymd2ord te) hbound (ymd2ord te + 1 - ymd2ord ts)
    (ymd2ord ts) with ⟨days, hdays⟩
  have hdays2 : histDays (ymd2ord ts) (ymd2ord te) = .ok days := hdays
  refine ⟨days, hdays2, ?_, ?_, ?_, ?_, ?_⟩
  · simp only [get_historical_ndvi, hs, he, hdays2]
  · intro i hi
    exact histLoop_spacing (ymd2ord te) _ (ymd2ord ts) days hdays i hi
  · exact histValues_mem_bounds rs days 0 _
  · intro hpos
    cases hd : days with
    | nil => rw [hd] at hpos; simp at hpos
    | cons d t =>
      simp only [List.getD_cons_zero]
      exact histValues_head rs 0 _ d t
  · intro i hi
    have h := histValues_get_succ rs days 0 (0.4 + (r0 : ℝ)) i hi
    rwa [show 0 + i + 1 = i + 1 from by omega] at h

theorem historical_series_recurrence_witness :
    ∃ days : List ℕ,
      histDays (ymd2ord ⟨2024, 1, 1⟩) (ymd2ord ⟨2024, 1, 17⟩) = .ok days ∧
      get_historical_ndvi 0 0 0 0 "2024-01-01" "2024-01-17" 0 (fun _ => 0)
        = .ok (days.map formatOrd,
               histValues (fun _ => 0) 0 days (0.4 + ((0 : ℚ) : ℝ))) ∧
      (∀ i, i + 1 < days.length →
        days.getD (i + 1) 0 = days.getD i 0 + 16) ∧
      (∀ v ∈ histValues (fun _ => 0) 0 days (0.4 + ((0 : ℚ) : ℝ)),
        0.1 ≤ v ∧ v ≤ 0.9) ∧
      (0 < days.length →
        (histValues (fun _ => 0) 0 days (0.4 + ((0 : ℚ) : ℝ))).getD 0 0
          = histStep (days.getD 0 0) (0.4 + ((0 : ℚ) : ℝ))
              ((fun _ => (0 : ℚ)) 0)) ∧
      (∀ i, i + 1 < days.length →
        (histValues (fun _ => 0) 0 days (0.4 + ((0 : ℚ) : ℝ))).getD (i + 1) 0
          = histStep (days.getD (i + 1) 0)
              ((histValues (fun _ => 0) 0 days (0.4 + ((0 : ℚ) : ℝ))).getD i 0)
              ((fun _ => (0 : ℚ)) (i + 1))) :=
  historical_series_recurrence 0 0 0 0 "2024-01-01" "2024-01-17"
    ⟨2024, 1, 1⟩ ⟨2024, 1, 17⟩ 0 (fun _ => 0)
    (by decide) (by decide) (by decide) (by decide)

/-! ## Lemmas about zone binning -/

theorem zoneEdges_mono (lo hi : ℚ) (hlh : lo ≤ hi) {a b : ℕ} (hab : a ≤ b) :
    zoneEdges lo hi a ≤ zoneEdges lo hi b := by
  have h1 : (0 : ℚ) ≤ hi - lo := sub_nonneg.mpr hlh
  have h2 : (a : ℚ) ≤ (b : ℚ) := by exact_mod_cast hab
  have h3 : (hi - lo) * (a : ℚ) ≤ (hi - lo) * (b : ℚ) :=
    mul_le_mul_of_nonneg_left h2 h1
  rw [zoneEdges, zoneEdges]
  linarith

theorem zoneEdges_width (lo hi : ℚ) (i : ℕ) :
    zoneEdges lo hi (i + 1) - zoneEdges lo hi i = (hi - lo) / 5 := by
  rw [zoneEdges, zoneEdges]
  push_cast
  ring

theorem zoneEdges_five (lo hi : ℚ) : zoneEdges lo hi 5 = hi := by
  rw [zoneEdges]
  push_cast
  ring

theorem mem_zoneData (lo hi : ℚ) (c : List ℚ) (i : ℕ) (x : ℚ) :
    x ∈ zoneData lo hi c i ↔
      x ∈ c ∧ zoneEdges lo hi i ≤ x ∧ x < zoneEdges lo hi (i + 1) := by
  simp [zoneData, zoneMem, List.mem_filter, Bool.and_eq_true,
    decide_eq_true_eq]

theorem zoneMem_excl (lo hi : ℚ) (hlh : lo ≤ hi) (x : ℚ) (i j : ℕ)
    (hij : i < j) (h1 : zoneMem lo hi i x = true)
    (h2 : zoneMem lo hi j x = true) : False := by
  rw [zoneMem, Bool.and_eq_true, decide_eq_true_eq, decide_eq_true_eq] at h1 h2
  have hmono : zoneEdges lo hi (i + 1) ≤ zoneEdges lo hi j :=
    zoneEdges_mono lo hi hlh (by omega)
  linarith [h1.2, h2.1]

theorem map_sum_add (is : List ℕ) (f g : ℕ → ℕ) :
    (is.map (fun i => f i + g i)).sum = (is.map f).sum + (is.map g).sum := by
  induction is with
  | nil => simp
  | cons i t ih =>
    simp only [List.map_cons, List.sum_cons, ih]
    omega

theorem indSum_le_one (p : ℕ → ℚ → Bool) (x : ℚ) (is : List ℕ)
    (hexcl : is.Pairwise (fun i j => ¬(p i x = true ∧ p j x = true))) :
    (is.map (fun i => if p i x then (1 : ℕ) else 0)).sum ≤ 1 := by
  induction is with
  | nil => simp
  | cons i t ih =>
    rcases List.pairwise_cons.mp hexcl with ⟨hhead, htail⟩
    by_cases hp : p i x
    · have hsum : (t.map (fun j => if p j x then (1 : ℕ) else 0)).sum = 0 := by
        apply List.sum_eq_zero
        intro a ha
        rcases List.mem_map.mp ha with ⟨j, hj, rfl⟩
        have hnj : ¬(p i x = true ∧ p j x = true) := hhead j hj
        have hjf : ¬p j x = true := fun hq => hnj ⟨hp, hq⟩
        simp [hjf]
      simp [hp, hsum]
    · simp only [List.map_cons, List.sum_cons, if_neg hp]
      simpa using ih htail

theorem zone_counts_le (p : ℕ → ℚ → Bool) (is : List ℕ) :
    ∀ c : List ℚ,
      (∀ x ∈ c, is.Pairwise (fun i j => ¬(p i x = true ∧ p j x = true))) →
      (is.map (fun i => (c.filter (p i)).length)).sum ≤ c.length := by
  intro c
  induction c with
  | nil =>
    intro _
    have hz : (is.map (fun i => (List.filter (p i) []).length))
        = is.map (fun _ => 0) := by simp
    rw [hz]
    have : (is.map (fun _ : ℕ => (0 : ℕ))).sum = 0 := by
      apply List.sum_eq_zero
      intro a ha
      rcases List.mem_map.mp ha with ⟨j, _, rfl⟩
      rfl
    simp [this]
  | cons x t ih =>
    intro hexcl
    have hx := hexcl x (List.mem_cons_self _ _)
    have ht := ih (fun y hy => hexcl y (List.mem_cons_of_mem _ hy))
    have hfun : ∀ i, (List.filter (p i) (x :: t)).length
        = (if p i x then 1 else 0) + (List.filter (p i) t).length := by
      intro i
      rw [List.filter_cons]
      by_cases hp : p i x
      · simp [hp]
        omega
      · simp [hp]
    have hmap : is.map (fun i => (List.filter (p i) (x :: t)).length)
        = is.map (fun i => (if p i x then 1 else 0) + (List.filter (p i) t).length) :=
      congrArg (fun f => List.map f is) (funext hfun)
    rw [hmap, map_sum_add]
    have hind := indSum_le_one p x is hx
    simp only [List.length_cons]
    omega

theorem mkZone_some (lo hi : ℚ) (c : List ℚ) (i : ℕ) (z : NDVIZone)
    (h : mkZone lo hi c i = some z) :
    0 < (zoneData lo hi c i).length ∧
      z = ⟨zoneEdges lo hi i, zoneEdges lo hi (i + 1),
           mean (zoneData lo hi c i), (zoneData lo hi c i).length,
           ((zoneData lo hi c i).length : ℚ) / (c.length : ℚ) * 100⟩ := by
  rw [mkZone] at h
  by_cases hlen : 0 < (zoneData lo hi c i).length
  · rw [if_pos hlen] at h
    exact ⟨hlen, (Option.some.inj h).symm⟩
  · rw [if_neg hlen] at h
    cases h

theorem mem_zonesOf (c : List ℚ) (z : NDVIZone) (hz : z ∈ zonesOf c) :
    ∃ i, i < 5 ∧ 0 < (zoneData (listMin c) (listMax c) c i).length ∧
      z = ⟨zoneEdges (listMin c) (listMax c) i,
           zoneEdges (listMin c) (listMax c) (i + 1),
           mean (zoneData (listMin c) (listMax c) c i),
           (zoneData (listMin c) (listMax c) c i).length,
           ((zoneData (listMin c) (listMax c) c i).length : ℚ)
             / (c.length : ℚ) * 100⟩ := by
  rw [zonesOf] at hz
  rcases List.mem_filterMap.mp hz with ⟨i, hi, hmk⟩
  rw [List.mem_range] at hi
  rcases mkZone_some _ _ _ _ _ hmk with ⟨hlen, hzz⟩
  exact ⟨i, hi, hlen, hzz⟩

theorem pct_sum_eq (lo hi : ℚ) (c : List ℚ) (is : List ℕ) :
    ((is.filterMap (mkZone lo hi c)).map NDVIZone.percentage).sum
      = (is.map (fun i =>
          ((zoneData lo hi c i).length : ℚ) / (c.length : ℚ) * 100)).sum := by
  induction is with
  | nil => simp
  | cons i t ih =>
    by_cases hlen : 0 < (zoneData lo hi c i).length
    · have hmk : mkZone lo hi c i
          = some ⟨zoneEdges lo hi i, zoneEdges lo hi (i + 1),
              mean (zoneData lo hi c i), (zoneData lo hi c i).length,
              ((zoneData lo hi c i).length : ℚ) / (c.length : ℚ) * 100⟩ := by
        rw [mkZone, if_pos hlen]
      simp [List.filterMap_cons, hmk, ih]
    · have hmk : mkZone lo hi c i = none := by rw [mkZone, if_neg hlen]
      have h0 : ((zoneData lo hi c i).length : ℚ) = 0 := by
        have : (zoneData lo hi c i).length = 0 := by omega
        exact_mod_cast this
      simp [List.filterMap_cons, hmk, ih, h0]

theorem map_sum_mulconst (is : List ℕ) (f : ℕ → ℕ) (k : ℚ) :
    (is.map (fun i => (f i : ℚ) * k)).sum = ((is.map f).sum : ℕ) * k := by
  induction is with
  | nil => simp
  | cons i t ih =>
    simp only [List.map_cons, List.sum_cons, ih]
    push_cast
    ring

/-! ## Claim C1: the returned summary is ordered and within [0,1] -/

/-- C1: for any boundary, parsable date and 1000 normal draws, the
summary fields of the ndvi response satisfy
`0 ≤ min_ndvi ≤ average_ndvi ≤ max_ndvi ≤ 1`: they are the min, mean and
max of the draws clamped into [0,1]. -/
theorem ndvi_summary_ordered (b : Boundary) (date : String)
    (samples : List ℚ) (idx : List ℕ) (resp : NDVIResponse)
    (hlen : samples.length = 1000)
    (hok : get_ndvi b date samples idx = .ok resp) :
    0 ≤ resp.min_ndvi ∧ resp.min_ndvi ≤ resp.average_ndvi ∧
      resp.average_ndvi ≤ resp.max_ndvi ∧ resp.max_ndvi ≤ 1 := by
  rw [get_ndvi] at hok
  cases hp : parseDate date with
  | none => rw [hp] at hok; cases hok
  | some t =>
    rw [hp] at hok
    cases hok
    have hne : clipped samples ≠ [] := by
      have hl : (clipped samples).length = 1000 := by
        rw [clipped, List.length_map, hlen]
      exact List.ne_nil_of_length_pos (by omega)
    refine ⟨?_, ?_, ?_, ?_⟩
    · exact (clipped_all_bounds samples _ (listMin_mem _ hne)).1
    · exact le_mean _ _ hne (listMin_le _)
    · exact mean_le _ _ hne (le_listMax _)
    · exact (clipped_all_bounds samples _ (listMax_mem _ hne)).2

theorem ndvi_summary_ordered_witness :
    0 ≤ sampleResp.min_ndvi ∧ sampleResp.min_ndvi ≤ sampleResp.average_ndvi ∧
      sampleResp.average_ndvi ≤ sampleResp.max_ndvi ∧ sampleResp.max_ndvi ≤ 1 :=
  ndvi_summary_ordered ⟨"Polygon", []⟩ "2024-01-01" sampleInput
    (List.range 100) sampleResp (by simp [sampleInput]) rfl

/-! ## Claim C2: zone emission, percentages, and the uncounted maximum -/

/-- C2: every returned zone is a non-empty bin whose percentage is its
count over the full 1000-sample population times 100, the returned
percentages sum to at most 100, and — the bins being half-open with top
edge equal to the global maximum — a sample equal to the maximum is
counted in no bin. -/
theorem zones_percentages_sound (b : Boundary) (date : String)
    (samples : List ℚ) (idx : List ℕ) (resp : NDVIResponse)
    (hlen : samples.length = 1000)
    (hok : get_ndvi b date samples idx = .ok resp) :
    (∀ z ∈ resp.zones, 1 ≤ z.count ∧
      z.percentage = (z.count : ℚ) / 1000 * 100) ∧
    (resp.zones.map NDVIZone.percentage).sum ≤ 100 ∧
    (∀ x ∈ clipped samples, x = listMax (clipped samples) →
      ∀ i, i < 5 →
        zoneMem (listMin (clipped samples)) (listMax (clipped samples)) i x
          = false) := by
  rw [get_ndvi] at hok
  cases hp : parseDate date with
  | none => rw [hp] at hok; cases hok
  | some t =>
    rw [hp] at hok
    cases hok
    have hclen : (clipped samples).length = 1000 := by
      rw [clipped, List.length_map, hlen]
    have hne : clipped samples ≠ [] := List.ne_nil_of_length_pos (by omega)
    have hlh : listMin (clipped samples) ≤ listMax (clipped samples) :=
      le_listMax _ _ (listMin_mem _ hne)
    have hclenq : ((clipped samples).length : ℚ) = 1000 := by
      exact_mod_cast hclen
    refine ⟨?_, ?_, ?_⟩
    · intro z hz
      rcases mem_zonesOf _ z hz with ⟨i, _, hpos, rfl⟩
      refine ⟨hpos, ?_⟩
      show ((zoneData _ _ _ i).length : ℚ) / ((clipped samples).length : ℚ) * 100
        = ((zoneData _ _ _ i).length : ℚ) / 1000 * 100
      rw [hclenq]
    · show ((zonesOf (clipped samples)).map NDVIZone.percentage).sum ≤ 100
      rw [zonesOf, pct_sum_eq]
      have hfun : ∀ i : ℕ,
          ((zoneData (listMin (clipped samples)) (listMax (clipped samples))
              (clipped samples) i).length : ℚ)
              / ((clipped samples).length : ℚ) * 100
          = ((zoneData (listMin (clipped samples)) (listMax (clipped samples))
              (clipped samples) i).length : ℚ)
              * (100 / ((clipped samples).length : ℚ)) := fun i => by ring
      rw [congrArg (fun f => (List.map f (List.range 5)).sum) (funext hfun)]
      rw [show (fun i => ((zoneData (listMin (clipped samples))
            (listMax (clipped samples)) (clipped samples) i).length : ℚ)
            * (100 / ((clipped samples).length : ℚ)))
          = (fun i => (((fun j => (zoneData (listMin (clipped samples))
              (listMax (clipped samples)) (clipped samples) j).length) i : ℕ) : ℚ)
            * (100 / ((clipped samples).length : ℚ))) from rfl]
      rw [map_sum_mulconst]
      have hpair : ∀ x ∈ clipped samples,
          (List.range 5).Pairwise (fun i j =>
            ¬(zoneMem (listMin (clipped samples)) (listMax (clipped samples)) i x = true ∧
              zoneMem (listMin (clipped samples)) (listMax (clipped samples)) j x = true)) := by
        intro x _
        refine (List.pairwise_lt_range 5).imp ?_
        intro a b hab hand
        exact zoneMem_excl _ _ hlh x a b hab hand.1 hand.2
      have hcount := zone_counts_le
        (zoneMem (listMin (clipped samples)) (listMax (clipped samples)))
        (List.range 5) (clipped samples) hpair
      rw [hclen] at hcount
      have hcountq : ((((List.range 5).map (fun j =>
          (zoneData (listMin (clipped samples)) (listMax (clipped samples))
            (clipped samples) j).length)).sum : ℕ) : ℚ) ≤ 1000 := by
        exact_mod_cast hcount
      rw [hclenq]
      nlinarith [hcountq]
    · intro x hx hxe i hi5
      cases hzm : zoneMem (listMin (clipped samples)) (listMax (clipped samples)) i x with
      | false => rfl
      | true =>
        exfalso
        rw [zoneMem, Bool.and_eq_true, decide_eq_true_eq, decide_eq_true_eq] at hzm
        have h2 : zoneEdges (listMin (clipped samples)) (listMax (clipped samples)) (i + 1)
            ≤ zoneEdges (listMin (clipped samples)) (listMax (clipped samples)) 5 :=
          zoneEdges_mono _ _ hlh (by omega)
        rw [zoneEdges_five] at h2
        subst hxe
        linarith [hzm.2]

theorem zones_percentages_sound_witness :
    (∀ z ∈ sampleResp.zones, 1 ≤ z.count ∧
      z.percentage = (z.count : ℚ) / 1000 * 100) ∧
    (sampleResp.zones.map NDVIZone.percentage).sum ≤ 100 ∧
    (∀ x ∈ clipped sampleInput, x = listMax (clipped sampleInput) →
      ∀ i, i < 5 →
        zoneMem (listMin (clipped sampleInput)) (listMax (clipped sampleInput)) i x
          = false) :=
  zones_percentages_sound ⟨"Polygon", []⟩ "2024-01-01" sampleInput
    (List.range 100) sampleResp (by simp [sampleInput]) rfl

/-! ## Claim C10: per-zone invariants and ordering -/

theorem pairwise_filterMap_helper {α β : Type} (f : α → Option β)
    (R : α → α → Prop) (S : β → β → Prop)
    (H : ∀ a b, R a b → ∀ x, f a = some x → ∀ y, f b = some y → S x y) :
    ∀ {l : List α}, l.Pairwise R → (l.filterMap f).Pairwise S := by
  intro l hl
  induction l with
  | nil => simp
  | cons a t ih =>
    rcases List.pairwise_cons.mp hl with ⟨hhead, htail⟩
    rw [List.filterMap_cons]
    cases hfa : f a with
    | none => exact ih htail
    | some x =>
      refine List.pairwise_cons.mpr ⟨?_, ih htail⟩
      intro y hy
      rcases List.mem_filterMap.mp hy with ⟨c, hc, hfc⟩
      exact H a c (hhead c hc) x hfa y hfc

theorem mkZone_min_lt (lo hi : ℚ) (c : List ℚ) (i j : ℕ) (hij : i < j)
    (z1 z2 : NDVIZone) (h1 : mkZone lo hi c i = some z1)
    (h2 : mkZone lo hi c j = some z2) : z1.min < z2.min := by
  rcases mkZone_some _ _ _ _ _ h1 with ⟨hp1, rfl⟩
  rcases mkZone_some _ _ _ _ _ h2 with ⟨hp2, rfl⟩
  have hne1 : zoneData lo hi c i ≠ [] := List.ne_nil_of_length_pos hp1
  rcases List.exists_mem_of_ne_nil _ hne1 with ⟨x, hx⟩
  rcases (mem_zoneData _ _ _ _ _).mp hx with ⟨_, hxl, hxr⟩
  have hei : zoneEdges lo hi i < zoneEdges lo hi (i + 1) := lt_of_le_of_lt hxl hxr
  have hw := zoneEdges_width lo hi i
  have hd : 0 < hi - lo := by linarith
  have hkey : zoneEdges lo hi j - zoneEdges lo hi i
      = (hi - lo) * ((j : ℚ) - (i : ℚ)) / 5 := by
    rw [zoneEdges, zoneEdges]
    ring
  have hj1 : (i : ℚ) + 1 ≤ (j : ℚ) := by
    have : i + 1 ≤ j := hij
    exact_mod_cast this
  have hpos : 0 < (hi - lo) * ((j : ℚ) - (i : ℚ)) :=
    mul_pos hd (by linarith)
  show zoneEdges lo hi i < zoneEdges lo hi j
  linarith

/-- C10: every returned zone has at least one sample, its average lies
within its `[min, max]` range, its width is a fifth of the observed
value range, and zones come in strictly increasing order of their lower
edge. -/
theorem zones_records_invariants (b : Boundary) (date : String)
    (samples : List ℚ) (idx : List ℕ) (resp : NDVIResponse)
    (hok : get_ndvi b date samples idx = .ok resp) :
    (∀ z ∈ resp.zones, 1 ≤ z.count ∧ z.min ≤ z.average ∧
      z.average ≤ z.max ∧
      z.max - z.min = (resp.max_ndvi - resp.min_ndvi) / 5) ∧
    resp.zones.Pairwise (fun z1 z2 => z1.min < z2.min) := by
  rw [get_ndvi] at hok
  cases hp : parseDate date with
  | none => rw [hp] at hok; cases hok
  | some t =>
    rw [hp] at hok
    cases hok
    constructor
    · intro z hz
      rcases mem_zonesOf _ z hz with ⟨i, _, hpos, rfl⟩
      have hne : zoneData (listMin (clipped samples)) (listMax (clipped samples))
          (clipped samples) i ≠ [] := List.ne_nil_of_length_pos hpos
      refine ⟨hpos, ?_, ?_, ?_⟩
      · exact le_mean _ _ hne
          (fun y hy => ((mem_zoneData _ _ _ _ _).mp hy).2.1)
      · exact mean_le _ _ hne
          (fun y hy => le_of_lt ((mem_zoneData _ _ _ _ _).mp hy).2.2)
      · exact zoneEdges_width _ _ i
    · show (zonesOf (clipped samples)).Pairwise (fun z1 z2 => z1.min < z2.min)
      rw [zonesOf]
      exact pairwise_filterMap_helper _ (· < ·) _
        (fun a b hab z1 h1 z2 h2 => mkZone_min_lt _ _ _ a b hab z1 z2 h1 h2)
        (List.pairwise_lt_range 5)

theorem zones_records_invariants_witness :
    (∀ z ∈ sampleResp.zones, 1 ≤ z.count ∧ z.min ≤ z.average ∧
      z.average ≤ z.max ∧
      z.max - z.min = (sampleResp.max_ndvi - sampleResp.min_ndvi) / 5) ∧
    sampleResp.zones.Pairwise (fun z1 z2 => z1.min < z2.min) :=
  zones_records_invariants ⟨"Polygon", []⟩ "2024-01-01" sampleInput
    (List.range 100) sampleResp rfl

/-! ## Claim C6: the visualization subsample -/

theorem subperm_map_q (f : ℕ → ℚ) {l1 l2 : List ℕ}
    (h : l1.Subperm l2) : (l1.map f).Subperm (l2.map f) := by
  obtain ⟨l, hperm, hsub⟩ := h
  exact ⟨l.map f, hperm.map f, hsub.map f⟩

theorem map_getD_range (c : List ℚ) :
    (List.range c.length).map (fun i => c.getD i 0) = c := by
  apply List.ext_getElem
  · simp
  · intro i h1 h2
    simp only [List.getElem_map, List.getElem_range]
    rw [List.getD_eq_getElem]

/-- C6: under the semantics of `np.random.choice(..., replace=False)` —
`min(100, n)` distinct in-range positions — the returned subsample has
length exactly `min(100, totalSamples)`, is a sub-permutation of the
full clamped sample list (drawn without replacement), and every returned
value lies in [0, 1]. -/
theorem subsample_props (b : Boundary) (date : String) (samples : List ℚ)
    (idx : List ℕ) (resp : NDVIResponse)
    (hlen : idx.length = min 100 samples.length)
    (hnd : idx.Nodup)
    (hbd : ∀ i ∈ idx, i < samples.length)
    (hok : get_ndvi b date samples idx = .ok resp) :
    resp.ndvi_values.length = min 100 samples.length ∧
    resp.ndvi_values.Subperm (clipped samples) ∧
    (∀ v ∈ resp.ndvi_values, 0 ≤ v ∧ v ≤ 1) := by
  rw [get_ndvi] at hok
  cases hp : parseDate date with
  | none => rw [hp] at hok; cases hok
  | some t =>
    rw [hp] at hok
    cases hok
    have hcl : (clipped samples).length = samples.length := by
      rw [clipped, List.length_map]
    have htake : idx.take (min 100 (clipped samples).length) = idx := by
      apply List.take_of_length_le
      rw [hcl, hlen]
    refine ⟨?_, ?_, ?_⟩
    · show ((idx.take (min 100 (clipped samples).length)).map
          (fun i => (clipped samples).getD i 0)).length = min 100 samples.length
      rw [htake, List.length_map, hlen]
    · show ((idx.take (min 100 (clipped samples).length)).map
          (fun i => (clipped samples).getD i 0)).Subperm (clipped samples)
      rw [htake]
      have hsub : idx.Subperm (List.range (clipped samples).length) :=
        List.subperm_of_subset hnd
          (fun i hi => List.mem_range.mpr (by rw [hcl]; exact hbd i hi))
      have hmap := subperm_map_q (fun i => (clipped samples).getD i 0) hsub
      rwa [map_getD_range] at hmap
    · intro v hv
      rw [htake] at hv
      rcases List.mem_map.mp hv with ⟨i, hi, rfl⟩
      have hilt : i < (clipped samples).length := by
        rw [hcl]
        exact hbd i hi
      rw [List.getD_eq_getElem _ _ hilt]
      exact clipped_all_bounds samples _ (List.getElem_mem hilt)

theorem subsample_props_witness :
    sampleResp.ndvi_values.length = min 100 sampleInput.length ∧
    sampleResp.ndvi_values.Subperm (clipped sampleInput) ∧
    (∀ v ∈ sampleResp.ndvi_values, 0 ≤ v ∧ v ≤ 1) :=
  subsample_props ⟨"Polygon", []⟩ "2024-01-01" sampleInput
    (List.range 100) sampleResp (by decide) (by decide) (by decide) rfl
